import Mathlib

/-!
Verification of the dance-battle scoreboard engine.

The repository contains two variants of the same React component:
`src/src/App.tsx` (embedded below in namespace `App`) and
`src/unnamed/part_001` (embedded in namespace `Part1`).  Both keep a
roster of competitors and a list of per-competitor score records, and
derive a leaderboard by sorting the roster by descending total score.
The definitions below are a shallow embedding of the state and the
event handlers of those two components; scores are modelled as `Int`
(the handlers feed `parseInt` results, respectively integer star
ratings, into plain additions, so integer arithmetic is exact).
-/

namespace DanceBattle

/-- A roster entry, from `interface Competitor` in both variants. -/
structure Competitor where
  id : String
  name : String
deriving DecidableEq

/-- A per-competitor score record, from `interface Score` in both variants. -/
structure Score where
  competitorId : String
  creativity : Int
  technique : Int
  presentation : Int
deriving DecidableEq

/-- The transient score-entry fields, from the `currentScores` state hook. -/
structure CurrentScores where
  creativity : Int
  technique : Int
  presentation : Int
deriving DecidableEq

/-- The component state relevant to the scoreboard logic: the roster, the
score list, the pending competitor-name input, the error message, the
selected competitor and the pending category values.  Dialog-visibility
state is pure presentation and is not modelled. -/
structure AppState where
  competitors : List Competitor
  scores : List Score
  newCompetitorName : String
  error : Option String
  currentCompetitorId : String
  currentScores : CurrentScores
deriving DecidableEq

/-- Whitespace test used by `jsTrim`; the inputs relevant to the claims
only involve ASCII whitespace, where ECMAScript and `Char.isWhitespace`
agree. -/
def isJsWhitespace (c : Char) : Bool :=
  c.isWhitespace

/-- Model of ECMAScript `String.prototype.trim` (the built-in called by
both variants): drop leading and trailing whitespace. -/
def jsTrim (s : String) : String :=
  String.mk (((s.data.dropWhile isJsWhitespace).reverse.dropWhile isJsWhitespace).reverse)

/-- From `getCompetitorScores` (identical in both variants): all score
records whose `competitorId` matches. -/
def getCompetitorScores (scores : List Score) (competitorId : String) : List Score :=
  scores.filter (fun s => s.competitorId == competitorId)

/-- From `calculateTotalScore` (a `forEach` accumulation in `App.tsx`, a
`reduce` in `part_001`; both are a left fold starting from 0). -/
def calculateTotalScore (scores : List Score) (competitorId : String) : Int :=
  (getCompetitorScores scores competitorId).foldl
    (fun total s => total + s.creativity + s.technique + s.presentation) 0

/-- The order used by the leaderboard comparator
`(a, b) => calculateTotalScore(b.id) - calculateTotalScore(a.id)`:
`a` may come before `b` iff the total of `b` is at most the total of `a`. -/
def leaderboardLE (scores : List Score) (a b : Competitor) : Prop :=
  calculateTotalScore scores b.id ≤ calculateTotalScore scores a.id

instance (scores : List Score) : DecidableRel (leaderboardLE scores) :=
  fun _ _ => inferInstanceAs (Decidable (_ ≤ _))

/-- From `sortedCompetitors` (identical in both variants):
`[...competitors].sort((a, b) => scoreB - scoreA)`.  ECMAScript requires
`Array.prototype.sort` to be stable, and for a total preorder every
stable sort produces the same output, so the call is modelled by a
stable insertion sort with the comparator's order. -/
def sortedCompetitors (competitors : List Competitor) (scores : List Score) : List Competitor :=
  competitors.insertionSort (leaderboardLE scores)

/-- The `newScore` object built by `handleSubmitScore` in both variants. -/
def newScoreOf (st : AppState) : Score :=
  { competitorId := st.currentCompetitorId
    creativity := st.currentScores.creativity
    technique := st.currentScores.technique
    presentation := st.currentScores.presentation }

namespace App

/-- From `handleAddCompetitor` in `src/src/App.tsx`: a blank (empty after
trimming) name returns early WITHOUT setting an error; a duplicate name
sets an error; otherwise the competitor is appended with a fresh id
(`crypto.randomUUID()`, modelled as the parameter `newId`), the name
input is cleared and the error is cleared. -/
def handleAddCompetitor (st : AppState) (newId : String) : AppState :=
  if jsTrim st.newCompetitorName = "" then st
  else if st.competitors.any (fun c => c.name == jsTrim st.newCompetitorName) then
    { st with error := some "Competitor name already exists." }
  else
    { st with
        competitors := st.competitors ++ [⟨newId, jsTrim st.newCompetitorName⟩]
        newCompetitorName := ""
        error := none }

/-- From `handleRemoveCompetitor` in `src/src/App.tsx`: filter the
competitor out of the roster and filter its records out of the score list. -/
def handleRemoveCompetitor (st : AppState) (competitorId : String) : AppState :=
  { st with
      competitors := st.competitors.filter (fun c => !(c.id == competitorId))
      scores := st.scores.filter (fun s => !(s.competitorId == competitorId)) }

/-- From `handleSubmitScore` in `src/src/App.tsx`: an empty selection sets
an error; otherwise the first record with the selected `competitorId` is
OVERWRITTEN with the new values (`findIndex` + assignment), or a new
record is appended when none exists; then the entry fields, the
selection and the error are reset. -/
def handleSubmitScore (st : AppState) : AppState :=
  if st.currentCompetitorId = "" then
    { st with error := some "Please select a competitor." }
  else
    let newScore := newScoreOf st
    let scoresNext :=
      match st.scores.findIdx? (fun s => s.competitorId == newScore.competitorId) with
      | some i => st.scores.set i newScore
      | none => st.scores ++ [newScore]
    { st with
        scores := scoresNext
        currentScores := ⟨0, 0, 0⟩
        currentCompetitorId := ""
        error := none }

end App

/-- From `handleSubmitScore` in `src/unnamed/part_001`: the record stored
over an existing one adds the new category values onto the existing ones. -/
def combineScores (existing newScore : Score) : Score :=
  { competitorId := newScore.competitorId
    creativity := existing.creativity + newScore.creativity
    technique := existing.technique + newScore.technique
    presentation := existing.presentation + newScore.presentation }

namespace Part1

/-- From `handleAddCompetitor` in `src/unnamed/part_001`: identical to the
`App.tsx` variant except that a blank name sets an explicit error message. -/
def handleAddCompetitor (st : AppState) (newId : String) : AppState :=
  if jsTrim st.newCompetitorName = "" then
    { st with error := some "Competitor name cannot be empty." }
  else if st.competitors.any (fun c => c.name == jsTrim st.newCompetitorName) then
    { st with error := some "Competitor name already exists." }
  else
    { st with
        competitors := st.competitors ++ [⟨newId, jsTrim st.newCompetitorName⟩]
        newCompetitorName := ""
        error := none }

/-- From `handleRemoveCompetitor` in `src/unnamed/part_001`: like the
`App.tsx` variant, but when the roster becomes empty the pending category
values and the selection are also reset. -/
def handleRemoveCompetitor (st : AppState) (competitorId : String) : AppState :=
  let updated := st.competitors.filter (fun c => !(c.id == competitorId))
  let st1 :=
    if updated.isEmpty then
      { st with
          competitors := updated
          currentScores := ⟨0, 0, 0⟩
          currentCompetitorId := "" }
    else
      { st with competitors := updated }
  { st1 with scores := st.scores.filter (fun s => !(s.competitorId == competitorId)) }

/-- From `handleSubmitScore` in `src/unnamed/part_001`: like the `App.tsx`
variant, but an existing record is replaced by the SUM of the existing and
the new category values.  `findIdx?` returning `some i` guarantees
`i < st.scores.length`, so the inner `none` fallback is unreachable. -/
def handleSubmitScore (st : AppState) : AppState :=
  if st.currentCompetitorId = "" then
    { st with error := some "Please select a competitor." }
  else
    let newScore := newScoreOf st
    let scoresNext :=
      match st.scores.findIdx? (fun s => s.competitorId == newScore.competitorId) with
      | some i =>
          match st.scores[i]? with
          | some existing => st.scores.set i (combineScores existing newScore)
          | none => st.scores.set i newScore
      | none => st.scores ++ [newScore]
    { st with
        scores := scoresNext
        currentScores := ⟨0, 0, 0⟩
        currentCompetitorId := ""
        error := none }

end Part1

/-- The category keys of the `categories` array (both variants). -/
inductive CategoryKey where
  | creativity
  | technique
  | presentation
deriving DecidableEq

/-- Record update performed by `handleScoreChange` for one category key. -/
def setCategory (cs : CurrentScores) (cat : CategoryKey) (value : Int) : CurrentScores :=
  match cat with
  | .creativity => { cs with creativity := value }
  | .technique => { cs with technique := value }
  | .presentation => { cs with presentation := value }

/-- From `handleScoreChange` (both variants): set one pending category value. -/
def handleScoreChange (st : AppState) (cat : CategoryKey) (value : Int) : AppState :=
  { st with currentScores := setCategory st.currentScores cat value }

/-- Typing into the competitor-name input (`setNewCompetitorName` on change). -/
def setNewCompetitorName (st : AppState) (s : String) : AppState :=
  { st with newCompetitorName := s }

/-- Choosing an option of the competitor select (`setCurrentCompetitorId`). -/
def setCurrentCompetitorId (st : AppState) (cid : String) : AppState :=
  { st with currentCompetitorId := cid }

/-- The initial state of both components: empty roster, empty score list,
empty inputs, no error (the startup `localStorage` read initialises both
lists to empty when nothing is stored). -/
def initState : AppState :=
  { competitors := []
    scores := []
    newCompetitorName := ""
    error := none
    currentCompetitorId := ""
    currentScores := ⟨0, 0, 0⟩ }

/-- One user-driven mutation of either variant.  The competitor select
only offers the empty option and the ids of roster members, so
`selectId` carries that restriction; every other handler is callable at
any time. -/
inductive Step : AppState → AppState → Prop where
  | typeName (st : AppState) (s : String) : Step st (setNewCompetitorName st s)
  | addA (st : AppState) (newId : String) : Step st (App.handleAddCompetitor st newId)
  | addP (st : AppState) (newId : String) : Step st (Part1.handleAddCompetitor st newId)
  | removeA (st : AppState) (cid : String) : Step st (App.handleRemoveCompetitor st cid)
  | removeP (st : AppState) (cid : String) : Step st (Part1.handleRemoveCompetitor st cid)
  | selectId (st : AppState) (cid : String)
      (h : cid = "" ∨ ∃ c ∈ st.competitors, c.id = cid) :
      Step st (setCurrentCompetitorId st cid)
  | changeScore (st : AppState) (cat : CategoryKey) (value : Int) :
      Step st (handleScoreChange st cat value)
  | submitA (st : AppState) : Step st (App.handleSubmitScore st)
  | submitP (st : AppState) : Step st (Part1.handleSubmitScore st)

/-- States reachable from startup by user-driven mutations. -/
def Reachable (st : AppState) : Prop :=
  Relation.ReflTransGen Step initState st

/-- Referential integrity: every score record points at a roster member. -/
def scoresReferenceCompetitors (st : AppState) : Prop :=
  ∀ s ∈ st.scores, ∃ c ∈ st.competitors, c.id = s.competitorId

/-- At most one score record per competitor id. -/
def scoresUnique (st : AppState) : Prop :=
  st.scores.Pairwise (fun s t => s.competitorId ≠ t.competitorId)

/-!
Helper lemmas.  The stability argument for the leaderboard sort: filtering
the sorted list down to the competitors of any one total gives the same
list as filtering the roster, which is exactly preservation of the
relative order of tied competitors.
-/

theorem filter_total_orderedInsert (scores : List Score) (t : Int) (a : Competitor)
    (l : List Competitor) :
    (l.orderedInsert (leaderboardLE scores) a).filter
        (fun c => calculateTotalScore scores c.id == t)
      = if calculateTotalScore scores a.id = t then
          a :: l.filter (fun c => calculateTotalScore scores c.id == t)
        else
          l.filter (fun c => calculateTotalScore scores c.id == t) := by
  induction l with
  | nil =>
      by_cases h : calculateTotalScore scores a.id = t <;>
        simp [List.orderedInsert, List.filter_cons, h]
  | cons b l ih =>
      simp only [List.orderedInsert]
      by_cases hr : leaderboardLE scores a b
      · rw [if_pos hr]
        by_cases h : calculateTotalScore scores a.id = t <;>
          simp [List.filter_cons, h]
      · rw [if_neg hr]
        have hlt : calculateTotalScore scores a.id < calculateTotalScore scores b.id := by
          simpa [leaderboardLE] using hr
        by_cases h : calculateTotalScore scores a.id = t
        · have hb : ¬ calculateTotalScore scores b.id = t := by omega
          simp [List.filter_cons, h, hb, ih]
        · simp [List.filter_cons, h, ih]

theorem filter_total_insertionSort (scores : List Score) (t : Int) (l : List Competitor) :
    (l.insertionSort (leaderboardLE scores)).filter
        (fun c => calculateTotalScore scores c.id == t)
      = l.filter (fun c => calculateTotalScore scores c.id == t) := by
  induction l with
  | nil => rfl
  | cons x xs ih =>
      simp only [List.insertionSort]
      rw [filter_total_orderedInsert]
      by_cases h : calculateTotalScore scores x.id = t <;>
        simp [List.filter_cons, h, ih]

/-- C1: for every roster and score list, `leaderboard()` returns exactly the
competitors of the roster (a permutation), ordered by descending
`totalScore` (sorted for the comparator's order `leaderboardLE`), and the
competitors of any one total appear in exactly their roster order
(stability of the sort, hence insertion order breaks ties). -/
theorem leaderboard_sorted_desc_stable (competitors : List Competitor) (scores : List Score) :
    (sortedCompetitors competitors scores).Perm competitors ∧
    (sortedCompetitors competitors scores).Sorted (leaderboardLE scores) ∧
    ∀ t : Int,
      (sortedCompetitors competitors scores).filter
          (fun c => calculateTotalScore scores c.id == t)
        = competitors.filter (fun c => calculateTotalScore scores c.id == t) := by
  refine ⟨List.perm_insertionSort _ _, ?_,
    fun t => filter_total_insertionSort scores t competitors⟩
  haveI : IsTotal Competitor (leaderboardLE scores) := ⟨fun _ _ => le_total _ _⟩
  haveI : IsTrans Competitor (leaderboardLE scores) :=
    ⟨fun _ _ _ hab hbc => le_trans hbc hab⟩
  exact List.sorted_insertionSort _ _

/-!
Shape of the score list produced by `handleSubmitScore` in the two
variants, depending on whether a record for the selected competitor
already exists.
-/

theorem submitA_scores_of_none (st : AppState) (h : ¬ st.currentCompetitorId = "")
    (hfind : st.scores.findIdx? (fun s => s.competitorId == st.currentCompetitorId) = none) :
    (App.handleSubmitScore st).scores = st.scores ++ [newScoreOf st] := by
  simp only [App.handleSubmitScore, if_neg h]
  simp [newScoreOf, hfind]

theorem submitA_scores_of_some (st : AppState) (h : ¬ st.currentCompetitorId = "") (i : Nat)
    (hfind : st.scores.findIdx? (fun s => s.competitorId == st.currentCompetitorId) = some i) :
    (App.handleSubmitScore st).scores = st.scores.set i (newScoreOf st) := by
  simp only [App.handleSubmitScore, if_neg h]
  simp [newScoreOf, hfind]

theorem submitP_scores_of_none (st : AppState) (h : ¬ st.currentCompetitorId = "")
    (hfind : st.scores.findIdx? (fun s => s.competitorId == st.currentCompetitorId) = none) :
    (Part1.handleSubmitScore st).scores = st.scores ++ [newScoreOf st] := by
  simp only [Part1.handleSubmitScore, if_neg h]
  simp [newScoreOf, hfind]

theorem submitP_scores_of_some (st : AppState) (h : ¬ st.currentCompetitorId = "") (i : Nat)
    (hfind : st.scores.findIdx? (fun s => s.competitorId == st.currentCompetitorId) = some i)
    (hi : i < st.scores.length) :
    (Part1.handleSubmitScore st).scores
      = st.scores.set i (combineScores st.scores[i] (newScoreOf st)) := by
  simp only [Part1.handleSubmitScore, if_neg h]
  have hget : st.scores[i]? = some st.scores[i] := List.getElem?_eq_getElem hi
  simp [newScoreOf, hfind, hget]

theorem submit_common_reset (st : AppState) (h : ¬ st.currentCompetitorId = "") :
    (App.handleSubmitScore st).competitors = st.competitors ∧
    (App.handleSubmitScore st).error = none ∧
    (Part1.handleSubmitScore st).competitors = st.competitors ∧
    (Part1.handleSubmitScore st).error = none := by
  simp [App.handleSubmitScore, Part1.handleSubmitScore, if_neg h]

/-- C2: `totalScore(competitorId)` is the sum of the three categories of
that competitor's (unique) score record, 0 when no record exists, and
submitting creativity 5, technique 3, presentation 2 for a competitor
with no prior record yields a total of 10 (in both variants). -/
theorem totalScore_sums_the_three_categories (scores : List Score) (cid : String) :
    (∀ r : Score, getCompetitorScores scores cid = [r] →
        calculateTotalScore scores cid = r.creativity + r.technique + r.presentation) ∧
    (getCompetitorScores scores cid = [] → calculateTotalScore scores cid = 0) ∧
    (∀ st : AppState, ¬ st.currentCompetitorId = "" →
      getCompetitorScores st.scores st.currentCompetitorId = [] →
      st.currentScores = ⟨5, 3, 2⟩ →
      calculateTotalScore (App.handleSubmitScore st).scores st.currentCompetitorId = 10 ∧
      calculateTotalScore (Part1.handleSubmitScore st).scores st.currentCompetitorId = 10) := by
  refine ⟨?_, ?_, ?_⟩
  · intro r hr
    simp [calculateTotalScore, hr]
  · intro hnil
    simp [calculateTotalScore, hnil]
  · intro st h hempty hcs
    have hfind : st.scores.findIdx? (fun s => s.competitorId == st.currentCompetitorId)
        = none := by
      rw [List.findIdx?_eq_none_iff]
      intro x hx
      have := (List.filter_eq_nil_iff.mp hempty) x hx
      simpa using this
    have happend : getCompetitorScores (st.scores ++ [newScoreOf st]) st.currentCompetitorId
        = [newScoreOf st] := by
      unfold getCompetitorScores at hempty ⊢
      rw [List.filter_append, hempty]
      simp [newScoreOf]
    constructor
    · rw [submitA_scores_of_none st h hfind]
      unfold calculateTotalScore
      rw [happend]
      simp [newScoreOf, hcs]
    · rw [submitP_scores_of_none st h hfind]
      unfold calculateTotalScore
      rw [happend]
      simp [newScoreOf, hcs]

/-- Witness for C2 at concrete inputs. -/
theorem totalScore_sums_the_three_categories_witness :
    calculateTotalScore [⟨"a", 1, 2, 3⟩] "a" = 1 + 2 + 3 ∧
    calculateTotalScore [] "b" = 0 ∧
    calculateTotalScore
      (App.handleSubmitScore
        { competitors := [⟨"x", "Xen"⟩], scores := [], newCompetitorName := "",
          error := none, currentCompetitorId := "x",
          currentScores := ⟨5, 3, 2⟩ }).scores "x" = 10 := by
  refine ⟨(totalScore_sums_the_three_categories [⟨"a", 1, 2, 3⟩] "a").1 ⟨"a", 1, 2, 3⟩
      (by decide), (totalScore_sums_the_three_categories [] "b").2.1 (by decide), ?_⟩
  exact ((totalScore_sums_the_three_categories [] "x").2.2
    { competitors := [⟨"x", "Xen"⟩], scores := [], newCompetitorName := "",
      error := none, currentCompetitorId := "x", currentScores := ⟨5, 3, 2⟩ }
    (by decide) (by decide) (by decide)).1

/-- The state used to refute C3: the roster contains only competitor
"b", while the selected id "zzz" references no roster member (reachable
in the UI by selecting a competitor and then removing it). -/
def stGhost : AppState :=
  { competitors := [⟨"b", "Bob"⟩]
    scores := []
    newCompetitorName := ""
    error := none
    currentCompetitorId := "zzz"
    currentScores := ⟨4, 0, 1⟩ }

/-- C3 counterexample: with a selected id that references no existing
competitor, `handleSubmitScore` does NOT fail — both variants clear the
error and create a score record for the unknown id. -/
theorem submit_unknown_competitor_not_rejected :
    (∀ c ∈ stGhost.competitors, ¬ c.id = stGhost.currentCompetitorId) ∧
    (App.handleSubmitScore stGhost).error = none ∧
    (App.handleSubmitScore stGhost).scores = [⟨"zzz", 4, 0, 1⟩] ∧
    (Part1.handleSubmitScore stGhost).error = none ∧
    (Part1.handleSubmitScore stGhost).scores = [⟨"zzz", 4, 0, 1⟩] := by
  decide

/-- C3 (amended): `handleSubmitScore` fails with the selection validation
error exactly when the selected id is the empty string (nothing
selected); any non-empty id — existing or not — is accepted: the error
is cleared and a record for that id exists afterwards. -/
theorem submitScore_checks_only_empty_selection (st : AppState) :
    (st.currentCompetitorId = "" →
      App.handleSubmitScore st = { st with error := some "Please select a competitor." } ∧
      Part1.handleSubmitScore st = { st with error := some "Please select a competitor." }) ∧
    (¬ st.currentCompetitorId = "" →
      (App.handleSubmitScore st).error = none ∧
      (Part1.handleSubmitScore st).error = none ∧
      ¬ getCompetitorScores (App.handleSubmitScore st).scores st.currentCompetitorId = [] ∧
      ¬ getCompetitorScores (Part1.handleSubmitScore st).scores st.currentCompetitorId = []) := by
  constructor
  · intro h
    constructor <;> simp [App.handleSubmitScore, Part1.handleSubmitScore, h]
  · intro h
    obtain ⟨-, heA, -, heP⟩ := submit_common_reset st h
    refine ⟨heA, heP, ?_, ?_⟩
    · cases hfind : st.scores.findIdx? (fun s => s.competitorId == st.currentCompetitorId) with
      | none =>
          rw [submitA_scores_of_none st h hfind]
          unfold getCompetitorScores
          rw [List.filter_append]
          simp [newScoreOf]
      | some i =>
          obtain ⟨hi, hp, -⟩ := List.findIdx?_eq_some_iff_getElem.mp hfind
          rw [submitA_scores_of_some st h i hfind]
          intro hnil
          rw [getCompetitorScores, List.filter_eq_nil_iff] at hnil
          have hmem : newScoreOf st ∈ st.scores.set i (newScoreOf st) := by
            have hsome : (st.scores.set i (newScoreOf st))[i]? = some (newScoreOf st) :=
              List.getElem?_set_self (by simpa using hi)
            exact List.getElem?_mem hsome
          exact hnil _ hmem (by simp [newScoreOf])
    · cases hfind : st.scores.findIdx? (fun s => s.competitorId == st.currentCompetitorId) with
      | none =>
          rw [submitP_scores_of_none st h hfind]
          unfold getCompetitorScores
          rw [List.filter_append]
          simp [newScoreOf]
      | some i =>
          obtain ⟨hi, hp, -⟩ := List.findIdx?_eq_some_iff_getElem.mp hfind
          rw [submitP_scores_of_some st h i hfind hi]
          intro hnil
          rw [getCompetitorScores, List.filter_eq_nil_iff] at hnil
          have hmem : combineScores st.scores[i] (newScoreOf st)
              ∈ st.scores.set i (combineScores st.scores[i] (newScoreOf st)) := by
            have hsome : (st.scores.set i (combineScores st.scores[i] (newScoreOf st)))[i]?
                = some (combineScores st.scores[i] (newScoreOf st)) :=
              List.getElem?_set_self (by simpa using hi)
            exact List.getElem?_mem hsome
          exact hnil _ hmem (by simp [combineScores, newScoreOf])

/-- Witness for the amended C3 at concrete states. -/
theorem submitScore_checks_only_empty_selection_witness :
    App.handleSubmitScore initState
      = { initState with error := some "Please select a competitor." } ∧
    (App.handleSubmitScore stGhost).error = none := by
  exact ⟨((submitScore_checks_only_empty_selection initState).1 (by decide)).1,
    ((submitScore_checks_only_empty_selection stGhost).2 (by decide)).1⟩

/-- The state used to refute C5: a whitespace-only pending name. -/
def stBlank : AppState :=
  { competitors := [⟨"a", "Alice"⟩]
    scores := []
    newCompetitorName := "   "
    error := none
    currentCompetitorId := ""
    currentScores := ⟨0, 0, 0⟩ }

/-- C5 counterexample: in the `App.tsx` variant a whitespace-only name
leaves the roster unchanged but produces NO validation error — the
handler returns before setting any message, leaving the state fully
unchanged (the error stays `none`). -/
theorem blank_name_produces_no_error_in_App :
    jsTrim stBlank.newCompetitorName = "" ∧
    App.handleAddCompetitor stBlank "fresh-id" = stBlank ∧
    (App.handleAddCompetitor stBlank "fresh-id").error = none := by
  decide

/-- C5 (amended): for every state whose pending name is empty or
whitespace-only, both variants leave the roster (indeed the score list
and everything else) unchanged; the `part_001` variant sets the
validation error message, while the `App.tsx` variant returns silently
without producing any error. -/
theorem addCompetitor_blank_name (st : AppState) (newId : String)
    (h : jsTrim st.newCompetitorName = "") :
    App.handleAddCompetitor st newId = st ∧
    Part1.handleAddCompetitor st newId
      = { st with error := some "Competitor name cannot be empty." } := by
  constructor <;> simp [App.handleAddCompetitor, Part1.handleAddCompetitor, h]

/-- Witness for the amended C5 at a concrete state. -/
theorem addCompetitor_blank_name_witness :
    App.handleAddCompetitor stBlank "id-1" = stBlank ∧
    Part1.handleAddCompetitor stBlank "id-1"
      = { stBlank with error := some "Competitor name cannot be empty." } :=
  addCompetitor_blank_name stBlank "id-1" (by decide)

/-- C9: adding a name that exactly (case-sensitively) matches the name of
a roster member is rejected with the duplicate-name validation error in
both variants and the state changes only in the error message, so the
roster is unchanged.  The hypotheses `htrim` and `hne` record that the
candidate name is stored-form (trimmed, non-empty), which holds for
every name actually present in a reachable roster. -/
theorem addCompetitor_duplicate_name (st : AppState) (newId : String) (c : Competitor)
    (hc : c ∈ st.competitors) (hname : c.name = st.newCompetitorName)
    (htrim : jsTrim st.newCompetitorName = st.newCompetitorName)
    (hne : ¬ st.newCompetitorName = "") :
    App.handleAddCompetitor st newId
      = { st with error := some "Competitor name already exists." } ∧
    Part1.handleAddCompetitor st newId
      = { st with error := some "Competitor name already exists." } := by
  have hblank : ¬ jsTrim st.newCompetitorName = "" := by
    rw [htrim]
    exact hne
  have hdup : st.competitors.any (fun x => x.name == jsTrim st.newCompetitorName) = true := by
    rw [List.any_eq_true]
    exact ⟨c, hc, by rw [htrim]; simp [hname]⟩
  constructor <;> simp [App.handleAddCompetitor, Part1.handleAddCompetitor, hblank, hdup]

/-- The state used as the C9 and C10 witness: "Alice" is in the roster and
is also the pending name. -/
def stDup : AppState :=
  { competitors := [⟨"a", "Alice"⟩]
    scores := []
    newCompetitorName := "Alice"
    error := none
    currentCompetitorId := ""
    currentScores := ⟨0, 0, 0⟩ }

/-- Witness for C9 at a concrete state. -/
theorem addCompetitor_duplicate_name_witness :
    App.handleAddCompetitor stDup "id-2"
      = { stDup with error := some "Competitor name already exists." } ∧
    Part1.handleAddCompetitor stDup "id-2"
      = { stDup with error := some "Competitor name already exists." } :=
  addCompetitor_duplicate_name stDup "id-2" ⟨"a", "Alice"⟩ (by decide) (by decide)
    (by decide) (by decide)

/-- C10: when the submit validation fails (the selected id is the empty
string) both variants return the state with only the error message
replaced: the roster, the score list and every other field are
unchanged. -/
theorem submit_error_leaves_state_unchanged (st : AppState)
    (h : st.currentCompetitorId = "") :
    App.handleSubmitScore st = { st with error := some "Please select a competitor." } ∧
    Part1.handleSubmitScore st = { st with error := some "Please select a competitor." } := by
  constructor <;> simp [App.handleSubmitScore, Part1.handleSubmitScore, h]

/-- Witness for C10 at a concrete state. -/
theorem submit_error_leaves_state_unchanged_witness :
    App.handleSubmitScore stDup
      = { stDup with error := some "Please select a competitor." } ∧
    Part1.handleSubmitScore stDup
      = { stDup with error := some "Please select a competitor." } :=
  submit_error_leaves_state_unchanged stDup (by decide)

/-- The state used for C6: an existing record (1,1,1) for "a" and pending
submitted values (2,3,4) for the same competitor. -/
def stRepeat : AppState :=
  { competitors := [⟨"a", "Ann"⟩]
    scores := [⟨"a", 1, 1, 1⟩]
    newCompetitorName := ""
    error := none
    currentCompetitorId := "a"
    currentScores := ⟨2, 3, 4⟩ }

/-- C6: the two source variants disagree on repeated submission: from
`stRepeat` the `App.tsx` variant overwrites the existing record with the
new values (2,3,4), while the `part_001` variant stores the
componentwise sums (3,4,5) = `combineScores` of old and new, so the two
results differ. -/
theorem submit_variants_disagree :
    (App.handleSubmitScore stRepeat).scores = [⟨"a", 2, 3, 4⟩] ∧
    (Part1.handleSubmitScore stRepeat).scores
      = [combineScores ⟨"a", 1, 1, 1⟩ ⟨"a", 2, 3, 4⟩] ∧
    (Part1.handleSubmitScore stRepeat).scores = [⟨"a", 3, 4, 5⟩] ∧
    ¬ (App.handleSubmitScore stRepeat).scores = (Part1.handleSubmitScore stRepeat).scores := by
  decide

/-!
Lemmas about the filters performed by `handleRemoveCompetitor`.
-/

theorem removeP_lists (st : AppState) (cid : String) :
    (Part1.handleRemoveCompetitor st cid).competitors
        = st.competitors.filter (fun c => !(c.id == cid)) ∧
    (Part1.handleRemoveCompetitor st cid).scores
        = st.scores.filter (fun s => !(s.competitorId == cid)) := by
  constructor
  · simp only [Part1.handleRemoveCompetitor]
    split <;> rfl
  · simp only [Part1.handleRemoveCompetitor]

theorem not_id_of_mem_filter_competitors (l : List Competitor) (cid : String) (c : Competitor)
    (h : c ∈ l.filter (fun x => !(x.id == cid))) : ¬ c.id = cid := by
  have := (List.mem_filter.mp h).2
  simpa using this

theorem not_id_of_mem_filter_scores (l : List Score) (cid : String) (s : Score)
    (h : s ∈ l.filter (fun x => !(x.competitorId == cid))) : ¬ s.competitorId = cid := by
  have := (List.mem_filter.mp h).2
  simpa using this

theorem filter_competitors_eq_self (l : List Competitor) (cid : String)
    (h : ∀ c ∈ l, ¬ c.id = cid) : l.filter (fun x => !(x.id == cid)) = l := by
  rw [List.filter_eq_self]
  intro a ha
  simpa using h a ha

theorem filter_scores_eq_self (l : List Score) (cid : String)
    (h : ∀ s ∈ l, ¬ s.competitorId = cid) : l.filter (fun x => !(x.competitorId == cid)) = l := by
  rw [List.filter_eq_self]
  intro a ha
  simpa using h a ha

theorem totalScore_after_filter_out (scores : List Score) (cid : String) :
    calculateTotalScore (scores.filter (fun s => !(s.competitorId == cid))) cid = 0 := by
  have hnil : getCompetitorScores (scores.filter (fun s => !(s.competitorId == cid))) cid
      = [] := by
    unfold getCompetitorScores
    rw [List.filter_filter, List.filter_eq_nil_iff]
    intro a ha
    simp
  simp [calculateTotalScore, hnil]

theorem removeA_noop (st : AppState) (cid : String)
    (hc : ∀ c ∈ st.competitors, ¬ c.id = cid)
    (hs : ∀ s ∈ st.scores, ¬ s.competitorId = cid) :
    App.handleRemoveCompetitor st cid = st := by
  unfold App.handleRemoveCompetitor
  rw [filter_competitors_eq_self st.competitors cid hc, filter_scores_eq_self st.scores cid hs]

/-- C7 (amended): `removeCompetitor(id)` (both variants) removes the
competitor with that id from the roster and every score record with that
id, so afterwards `totalScore(id)` is 0 and the id no longer appears in
`leaderboard()`; the operation is idempotent, and it is a no-op on the
roster and the score list when no competitor AND no score record carries
that id (the score-list condition is forced: a dangling record with that
id would be deleted even though no competitor has the id). -/
theorem removeCompetitor_spec (st : AppState) (cid : String) :
    (∀ c ∈ (App.handleRemoveCompetitor st cid).competitors, ¬ c.id = cid) ∧
    (∀ s ∈ (App.handleRemoveCompetitor st cid).scores, ¬ s.competitorId = cid) ∧
    calculateTotalScore (App.handleRemoveCompetitor st cid).scores cid = 0 ∧
    (∀ c ∈ sortedCompetitors (App.handleRemoveCompetitor st cid).competitors
        (App.handleRemoveCompetitor st cid).scores, ¬ c.id = cid) ∧
    ((∀ c ∈ st.competitors, ¬ c.id = cid) → (∀ s ∈ st.scores, ¬ s.competitorId = cid) →
      App.handleRemoveCompetitor st cid = st) ∧
    App.handleRemoveCompetitor (App.handleRemoveCompetitor st cid) cid
      = App.handleRemoveCompetitor st cid ∧
    (∀ c ∈ (Part1.handleRemoveCompetitor st cid).competitors, ¬ c.id = cid) ∧
    (∀ s ∈ (Part1.handleRemoveCompetitor st cid).scores, ¬ s.competitorId = cid) ∧
    calculateTotalScore (Part1.handleRemoveCompetitor st cid).scores cid = 0 ∧
    (∀ c ∈ sortedCompetitors (Part1.handleRemoveCompetitor st cid).competitors
        (Part1.handleRemoveCompetitor st cid).scores, ¬ c.id = cid) ∧
    ((∀ c ∈ st.competitors, ¬ c.id = cid) → (∀ s ∈ st.scores, ¬ s.competitorId = cid) →
      (Part1.handleRemoveCompetitor st cid).competitors = st.competitors ∧
      (Part1.handleRemoveCompetitor st cid).scores = st.scores) ∧
    (Part1.handleRemoveCompetitor (Part1.handleRemoveCompetitor st cid) cid).competitors
      = (Part1.handleRemoveCompetitor st cid).competitors ∧
    (Part1.handleRemoveCompetitor (Part1.handleRemoveCompetitor st cid) cid).scores
      = (Part1.handleRemoveCompetitor st cid).scores := by
  have hAc : (App.handleRemoveCompetitor st cid).competitors
      = st.competitors.filter (fun c => !(c.id == cid)) := rfl
  have hAs : (App.handleRemoveCompetitor st cid).scores
      = st.scores.filter (fun s => !(s.competitorId == cid)) := rfl
  obtain ⟨hPc, hPs⟩ := removeP_lists st cid
  have haA : ∀ c ∈ (App.handleRemoveCompetitor st cid).competitors, ¬ c.id = cid := by
    rw [hAc]
    exact fun c hc => not_id_of_mem_filter_competitors st.competitors cid c hc
  have hbA : ∀ s ∈ (App.handleRemoveCompetitor st cid).scores, ¬ s.competitorId = cid := by
    rw [hAs]
    exact fun s hs => not_id_of_mem_filter_scores st.scores cid s hs
  have haP : ∀ c ∈ (Part1.handleRemoveCompetitor st cid).competitors, ¬ c.id = cid := by
    rw [hPc]
    exact fun c hc => not_id_of_mem_filter_competitors st.competitors cid c hc
  have hbP : ∀ s ∈ (Part1.handleRemoveCompetitor st cid).scores, ¬ s.competitorId = cid := by
    rw [hPs]
    exact fun s hs => not_id_of_mem_filter_scores st.scores cid s hs
  obtain ⟨hPc2, hPs2⟩ := removeP_lists (Part1.handleRemoveCompetitor st cid) cid
  refine ⟨haA, hbA, ?_, ?_, removeA_noop st cid, ?_, haP, hbP, ?_, ?_, ?_, ?_, ?_⟩
  · rw [hAs]
    exact totalScore_after_filter_out st.scores cid
  · intro c hcm
    exact haA c ((List.mem_insertionSort _).mp hcm)
  · exact removeA_noop (App.handleRemoveCompetitor st cid) cid haA hbA
  · rw [hPs]
    exact totalScore_after_filter_out st.scores cid
  · intro c hcm
    exact haP c ((List.mem_insertionSort _).mp hcm)
  · intro hc hs
    rw [hPc, hPs, filter_competitors_eq_self st.competitors cid hc,
      filter_scores_eq_self st.scores cid hs]
    exact ⟨rfl, rfl⟩
  · rw [hPc2, hPc]
    exact filter_competitors_eq_self _ cid (hPc ▸ haP)
  · rw [hPs2, hPs]
    exact filter_scores_eq_self _ cid (hPs ▸ hbP)

/-- The state used to refute the unconditional no-op clause of C7: no
competitor has id "x", but a (dangling) score record does. -/
def stDangling : AppState :=
  { competitors := []
    scores := [⟨"x", 1, 2, 3⟩]
    newCompetitorName := ""
    error := none
    currentCompetitorId := ""
    currentScores := ⟨0, 0, 0⟩ }

/-- C7 counterexample: although no competitor has id "x",
`removeCompetitor("x")` is NOT a no-op on the score list in either
variant — the dangling record for "x" is deleted. -/
theorem remove_absent_competitor_changes_scores :
    (∀ c ∈ stDangling.competitors, ¬ c.id = "x") ∧
    ¬ (App.handleRemoveCompetitor stDangling "x").scores = stDangling.scores ∧
    ¬ (Part1.handleRemoveCompetitor stDangling "x").scores = stDangling.scores := by
  decide

/-- Witness for the amended C7 at concrete inputs. -/
theorem removeCompetitor_spec_witness :
    calculateTotalScore (App.handleRemoveCompetitor stDangling "x").scores "x" = 0 ∧
    App.handleRemoveCompetitor stDup "x" = stDup :=
  ⟨(removeCompetitor_spec stDangling "x").2.2.1,
    (removeCompetitor_spec stDup "x").2.2.2.2.1 (by decide) (by decide)⟩

/-!
Preservation of the one-record-per-competitor invariant (C8) along every
operation, and hence in every reachable state.
-/

theorem addA_scores (st : AppState) (newId : String) :
    (App.handleAddCompetitor st newId).scores = st.scores := by
  unfold App.handleAddCompetitor
  split
  · rfl
  · split <;> rfl

theorem addP_scores (st : AppState) (newId : String) :
    (Part1.handleAddCompetitor st newId).scores = st.scores := by
  unfold Part1.handleAddCompetitor
  split
  · rfl
  · split <;> rfl

theorem submitA_of_empty (st : AppState) (h : st.currentCompetitorId = "") :
    App.handleSubmitScore st = { st with error := some "Please select a competitor." } := by
  simp [App.handleSubmitScore, h]

theorem submitP_of_empty (st : AppState) (h : st.currentCompetitorId = "") :
    Part1.handleSubmitScore st = { st with error := some "Please select a competitor." } := by
  simp [Part1.handleSubmitScore, h]

theorem pairwise_keys_set (a : Score) :
    ∀ (l : List Score) (i : Nat) (hi : i < l.length),
      a.competitorId = l[i].competitorId →
      l.Pairwise (fun s t => s.competitorId ≠ t.competitorId) →
      (l.set i a).Pairwise (fun s t => s.competitorId ≠ t.competitorId) := by
  intro l
  induction l with
  | nil => intro i hi; simp at hi
  | cons x xs ih =>
      intro i hi hkey hp
      rw [List.pairwise_cons] at hp
      cases i with
      | zero =>
          simp only [List.set_cons_zero]
          rw [List.pairwise_cons]
          refine ⟨fun b hb => ?_, hp.2⟩
          simp only [List.getElem_cons_zero] at hkey
          rw [hkey]
          exact hp.1 b hb
      | succ n =>
          simp only [List.set_cons_succ]
          rw [List.pairwise_cons]
          have hn : n < xs.length := by simpa using hi
          simp only [List.getElem_cons_succ] at hkey
          refine ⟨fun b hb => ?_, ih n hn hkey hp.2⟩
          rcases List.mem_or_eq_of_mem_set hb with hmem | rfl
          · exact hp.1 b hmem
          · rw [hkey]
            exact hp.1 _ (List.getElem_mem hn)

theorem scoresUnique_step {st stNext : AppState} (hstep : Step st stNext)
    (h : scoresUnique st) : scoresUnique stNext := by
  unfold scoresUnique at h ⊢
  cases hstep with
  | typeName s => exact h
  | addA newId => rw [addA_scores]; exact h
  | addP newId => rw [addP_scores]; exact h
  | removeA cid => exact List.Pairwise.sublist (List.filter_sublist _) h
  | removeP cid =>
      rw [(removeP_lists st cid).2]
      exact List.Pairwise.sublist (List.filter_sublist _) h
  | selectId cid hsel => exact h
  | changeScore cat value => exact h
  | submitA =>
      by_cases hc : st.currentCompetitorId = ""
      · rw [submitA_of_empty st hc]
        exact h
      · cases hfind : st.scores.findIdx? (fun s => s.competitorId == st.currentCompetitorId) with
        | none =>
            rw [submitA_scores_of_none st hc hfind]
            rw [List.pairwise_append]
            refine ⟨h, List.pairwise_singleton .., fun a ha b hb => ?_⟩
            have hb' : b = newScoreOf st := by simpa using hb
            have hps := (List.findIdx?_eq_none_iff.mp hfind) a ha
            subst hb'
            simpa [newScoreOf] using hps
        | some i =>
            obtain ⟨hi, hp, -⟩ := List.findIdx?_eq_some_iff_getElem.mp hfind
            rw [submitA_scores_of_some st hc i hfind]
            refine pairwise_keys_set (newScoreOf st) st.scores i hi ?_ h
            have hkey : st.scores[i].competitorId = st.currentCompetitorId := by simpa using hp
            simp [newScoreOf, hkey]
  | submitP =>
      by_cases hc : st.currentCompetitorId = ""
      · rw [submitP_of_empty st hc]
        exact h
      · cases hfind : st.scores.findIdx? (fun s => s.competitorId == st.currentCompetitorId) with
        | none =>
            rw [submitP_scores_of_none st hc hfind]
            rw [List.pairwise_append]
            refine ⟨h, List.pairwise_singleton .., fun a ha b hb => ?_⟩
            have hb' : b = newScoreOf st := by simpa using hb
            have hps := (List.findIdx?_eq_none_iff.mp hfind) a ha
            subst hb'
            simpa [newScoreOf] using hps
        | some i =>
            obtain ⟨hi, hp, -⟩ := List.findIdx?_eq_some_iff_getElem.mp hfind
            rw [submitP_scores_of_some st hc i hfind hi]
            refine pairwise_keys_set _ st.scores i hi ?_ h
            have hkey : st.scores[i].competitorId = st.currentCompetitorId := by simpa using hp
            simp [combineScores, newScoreOf, hkey]

theorem scoresUnique_of_reachable (st : AppState) (h : Reachable st) : scoresUnique st := by
  induction h with
  | refl => exact List.Pairwise.nil
  | tail hsteps hstep ih => exact scoresUnique_step hstep ih

/-- C8: in every reachable state (of either variant, under every
user-driven operation) at most one score record exists per competitor id
(the score list is pairwise distinct on `competitorId`); a successful
submit with no existing record appends exactly one new record, and a
successful submit with an existing record at position `i` keeps the
length and every other position unchanged (in-place modification). -/
theorem at_most_one_record_per_competitor :
    (∀ st : AppState, Reachable st → scoresUnique st) ∧
    (∀ st : AppState, ¬ st.currentCompetitorId = "" →
      (∀ s ∈ st.scores, ¬ s.competitorId = st.currentCompetitorId) →
      (App.handleSubmitScore st).scores = st.scores ++ [newScoreOf st] ∧
      (Part1.handleSubmitScore st).scores = st.scores ++ [newScoreOf st]) ∧
    (∀ (st : AppState) (i : Nat), ¬ st.currentCompetitorId = "" →
      st.scores.findIdx? (fun s => s.competitorId == st.currentCompetitorId) = some i →
      (App.handleSubmitScore st).scores.length = st.scores.length ∧
      (Part1.handleSubmitScore st).scores.length = st.scores.length ∧
      (∀ j : Nat, ¬ j = i → (App.handleSubmitScore st).scores[j]? = st.scores[j]?) ∧
      (∀ j : Nat, ¬ j = i → (Part1.handleSubmitScore st).scores[j]? = st.scores[j]?)) := by
  refine ⟨scoresUnique_of_reachable, ?_, ?_⟩
  · intro st h hno
    have hfind : st.scores.findIdx? (fun s => s.competitorId == st.currentCompetitorId)
        = none := by
      rw [List.findIdx?_eq_none_iff]
      intro x hx
      simpa using hno x hx
    exact ⟨submitA_scores_of_none st h hfind, submitP_scores_of_none st h hfind⟩
  · intro st i h hfind
    obtain ⟨hi, hp, -⟩ := List.findIdx?_eq_some_iff_getElem.mp hfind
    rw [submitA_scores_of_some st h i hfind, submitP_scores_of_some st h i hfind hi]
    refine ⟨List.length_set .., List.length_set .., fun j hj => ?_, fun j hj => ?_⟩
    · exact List.getElem?_set_ne (Ne.symm hj)
    · exact List.getElem?_set_ne (Ne.symm hj)

/-- Witness for C8 at concrete inputs. -/
theorem at_most_one_record_per_competitor_witness :
    scoresUnique initState ∧
    (App.handleSubmitScore stGhost).scores = stGhost.scores ++ [newScoreOf stGhost] ∧
    (App.handleSubmitScore stRepeat).scores.length = stRepeat.scores.length :=
  ⟨at_most_one_record_per_competitor.1 initState Relation.ReflTransGen.refl,
    (at_most_one_record_per_competitor.2.1 stGhost (by decide) (by decide)).1,
    (at_most_one_record_per_competitor.2.2 stRepeat 0 (by decide) (by decide)).1⟩

/-!
Referential integrity (C4): the score list never mentions an id missing
from the roster — except that `handleSubmitScore` can violate it, because
it never checks the selected id against the roster.
-/

theorem addA_competitors_extends (st : AppState) (newId : String) :
    ∀ x ∈ st.competitors, x ∈ (App.handleAddCompetitor st newId).competitors := by
  intro x hx
  unfold App.handleAddCompetitor
  split
  · exact hx
  · split
    · exact hx
    · exact List.mem_append_left _ hx

theorem addP_competitors_extends (st : AppState) (newId : String) :
    ∀ x ∈ st.competitors, x ∈ (Part1.handleAddCompetitor st newId).competitors := by
  intro x hx
  unfold Part1.handleAddCompetitor
  split
  · exact hx
  · split
    · exact hx
    · exact List.mem_append_left _ hx

/-- C4 (amended): referential integrity is preserved by `addCompetitor`
and `removeCompetitor` (both variants) from every state, and by
`submitScore` when the selected id is empty or references a roster
member; it is NOT preserved by `submitScore` from every reachable state
(see the counterexample), because the handler never checks the selected
id against the roster. -/
theorem score_reference_invariant (st : AppState) (h : scoresReferenceCompetitors st) :
    (∀ newId, scoresReferenceCompetitors (App.handleAddCompetitor st newId) ∧
      scoresReferenceCompetitors (Part1.handleAddCompetitor st newId)) ∧
    (∀ cid, scoresReferenceCompetitors (App.handleRemoveCompetitor st cid) ∧
      scoresReferenceCompetitors (Part1.handleRemoveCompetitor st cid)) ∧
    (st.currentCompetitorId = "" ∨ (∃ c ∈ st.competitors, c.id = st.currentCompetitorId) →
      scoresReferenceCompetitors (App.handleSubmitScore st) ∧
      scoresReferenceCompetitors (Part1.handleSubmitScore st)) := by
  refine ⟨?_, ?_, ?_⟩
  · intro newId
    constructor
    · intro s hs
      rw [addA_scores] at hs
      obtain ⟨c, hc, hcid⟩ := h s hs
      exact ⟨c, addA_competitors_extends st newId c hc, hcid⟩
    · intro s hs
      rw [addP_scores] at hs
      obtain ⟨c, hc, hcid⟩ := h s hs
      exact ⟨c, addP_competitors_extends st newId c hc, hcid⟩
  · intro cid
    constructor
    · intro s hs
      have hs' : s ∈ st.scores.filter (fun x => !(x.competitorId == cid)) := hs
      have hne : ¬ s.competitorId = cid := not_id_of_mem_filter_scores _ _ _ hs'
      obtain ⟨c, hc, hcid⟩ := h s (List.mem_of_mem_filter hs')
      refine ⟨c, ?_, hcid⟩
      show c ∈ st.competitors.filter (fun x => !(x.id == cid))
      rw [List.mem_filter]
      exact ⟨hc, by simp [hcid, hne]⟩
    · intro s hs
      rw [(removeP_lists st cid).2] at hs
      have hne : ¬ s.competitorId = cid := not_id_of_mem_filter_scores _ _ _ hs
      obtain ⟨c, hc, hcid⟩ := h s (List.mem_of_mem_filter hs)
      refine ⟨c, ?_, hcid⟩
      rw [(removeP_lists st cid).1, List.mem_filter]
      exact ⟨hc, by simp [hcid, hne]⟩
  · intro hsel
    by_cases hc : st.currentCompetitorId = ""
    · rw [submitA_of_empty st hc, submitP_of_empty st hc]
      exact ⟨h, h⟩
    · obtain ⟨c0, hc0, hc0id⟩ := hsel.resolve_left hc
      obtain ⟨hcompA, -, hcompP, -⟩ := submit_common_reset st hc
      constructor
      · intro s hs
        rw [hcompA]
        cases hfind :
            st.scores.findIdx? (fun x => x.competitorId == st.currentCompetitorId) with
        | none =>
            rw [submitA_scores_of_none st hc hfind] at hs
            rcases List.mem_append.mp hs with hmem | hnew
            · obtain ⟨c, hcm, hcid⟩ := h s hmem
              exact ⟨c, hcm, hcid⟩
            · have : s = newScoreOf st := by simpa using hnew
              subst this
              exact ⟨c0, hc0, by simpa [newScoreOf] using hc0id⟩
        | some i =>
            rw [submitA_scores_of_some st hc i hfind] at hs
            rcases List.mem_or_eq_of_mem_set hs with hmem | rfl
            · obtain ⟨c, hcm, hcid⟩ := h s hmem
              exact ⟨c, hcm, hcid⟩
            · exact ⟨c0, hc0, by simpa [newScoreOf] using hc0id⟩
      · intro s hs
        rw [hcompP]
        cases hfind :
            st.scores.findIdx? (fun x => x.competitorId == st.currentCompetitorId) with
        | none =>
            rw [submitP_scores_of_none st hc hfind] at hs
            rcases List.mem_append.mp hs with hmem | hnew
            · obtain ⟨c, hcm, hcid⟩ := h s hmem
              exact ⟨c, hcm, hcid⟩
            · have : s = newScoreOf st := by simpa using hnew
              subst this
              exact ⟨c0, hc0, by simpa [newScoreOf] using hc0id⟩
        | some i =>
            obtain ⟨hi, -, -⟩ := List.findIdx?_eq_some_iff_getElem.mp hfind
            rw [submitP_scores_of_some st hc i hfind hi] at hs
            rcases List.mem_or_eq_of_mem_set hs with hmem | rfl
            · obtain ⟨c, hcm, hcid⟩ := h s hmem
              exact ⟨c, hcm, hcid⟩
            · exact ⟨c0, hc0, by simpa [combineScores, newScoreOf] using hc0id⟩

/-- Witness for the amended C4 at a concrete state. -/
theorem score_reference_invariant_witness :
    scoresReferenceCompetitors (App.handleRemoveCompetitor stRepeat "a") ∧
    scoresReferenceCompetitors (App.handleSubmitScore stRepeat) :=
  ⟨((score_reference_invariant stRepeat
      (by unfold scoresReferenceCompetitors; decide)).2.1 "a").1,
    ((score_reference_invariant stRepeat
      (by unfold scoresReferenceCompetitors; decide)).2.2 (Or.inr (by decide))).1⟩

/-- The reachable state used to refute C4: "Alice" (id "ida") and "Bob"
(id "idb") are added, "ida" is selected in the score form, then "ida" is
removed; the selection keeps pointing at the removed competitor. -/
def stAfterRemove : AppState :=
  App.handleRemoveCompetitor
    (setCurrentCompetitorId
      (App.handleAddCompetitor
        (setNewCompetitorName
          (App.handleAddCompetitor (setNewCompetitorName initState "Alice") "ida")
          "Bob")
        "idb")
      "ida")
    "ida"

theorem stAfterRemove_reachable : Reachable stAfterRemove := by
  have h1 : Reachable (setNewCompetitorName initState "Alice") :=
    Relation.ReflTransGen.single (Step.typeName initState "Alice")
  have h2 := Relation.ReflTransGen.tail h1 (Step.addA _ "ida")
  have h3 := Relation.ReflTransGen.tail h2 (Step.typeName _ "Bob")
  have h4 := Relation.ReflTransGen.tail h3 (Step.addA _ "idb")
  have h5 := Relation.ReflTransGen.tail h4 (Step.selectId _ "ida" (Or.inr (by decide)))
  exact Relation.ReflTransGen.tail h5 (Step.removeA _ "ida")

/-- C4 counterexample: `stAfterRemove` is reachable and satisfies the
referential-integrity invariant, yet the `submitScore` operation (a
legal step from there) produces a state that violates it: a record for
the removed id "ida" is created while no roster member has that id. -/
theorem reference_invariant_broken_by_submit :
    Reachable stAfterRemove ∧
    stAfterRemove
      = { competitors := [⟨"idb", "Bob"⟩], scores := [], newCompetitorName := "",
          error := none, currentCompetitorId := "ida", currentScores := ⟨0, 0, 0⟩ } ∧
    scoresReferenceCompetitors stAfterRemove ∧
    Step stAfterRemove (App.handleSubmitScore stAfterRemove) ∧
    ¬ scoresReferenceCompetitors (App.handleSubmitScore stAfterRemove) := by
  refine ⟨stAfterRemove_reachable, by decide, ?_, Step.submitA stAfterRemove, ?_⟩
  · unfold scoresReferenceCompetitors
    decide
  · unfold scoresReferenceCompetitors
    decide

end DanceBattle
